import Mathlib

/-!
Shallow embedding of the two thread-safe FIFO queues of
`src/cpp/multi_threading/ThreadSafeContainers`:

* `BluntQueue.hpp` — a coarse-grained queue: one mutex over a `std::deque`.
  Its sequential state is the deque content, modelled as a `List`.
* `FineQueue.hpp` — a fine-grained queue: a singly linked list of
  `Node { data_ : shared_ptr<T>, next_ : unique_ptr<Node> }` with `head_`
  owning the chain and `tail_` a raw alias of the last node (the dummy).
  Following the spec's design note, the chain is modelled as the list of
  `data_` fields of the nodes reachable from `head_` (node `i`'s `next_`
  is node `i+1`; the final list entry is the node whose `next_` is null),
  and the `tail_` alias as the index of the node it points to, counted
  from `head_`.

Behaviour is sequential: each member function is a pure state transformer,
condition-variable waits on an empty queue are modelled as `none`
("no result in a sequential run"), and null-pointer dereferences that the
guards make unreachable are modelled by explicit `none`/fallback arms,
each marked in a comment.
-/

set_option autoImplicit false

namespace ThreadSafeContainers

variable {α : Type}

/-- State of `BluntQueue<T>`: the `std::deque<T> storage_` content, front first.
The mutex and condition variable carry no sequential state. -/
structure BluntQueue (α : Type) where
  storage : List α
  deriving Repr, DecidableEq

namespace BluntQueue

/-- Source `BluntQueue()` — default construction: empty deque. -/
def init : BluntQueue α := ⟨[]⟩

/-- Source `BluntQueue(std::initializer_list<T> items)`: `storage_{items.begin(), items.end()}`. -/
def ofList (items : List α) : BluntQueue α := ⟨items⟩

/-- Source `push(T value)`: `storage_.push_back(std::move(value))`. -/
def push (q : BluntQueue α) (value : α) : BluntQueue α := ⟨q.storage ++ [value]⟩

/-- Source `emplace(Args&&... args)`: `storage_.emplace_back(...)` — constructs the
element in place from `args`; on the already-constructed element it appends
exactly like `push`. -/
def emplace (q : BluntQueue α) (value : α) : BluntQueue α := q.push value

/-- Source `bool try_pop(T& value)`: if `storage_.empty()` return `false` (the
out-parameter keeps its prior content); else `value = std::move(storage_.front())`,
`storage_.pop_front()`, return `true`. Result is
(returned bool, out-parameter after the call, queue after the call). -/
def try_pop_ref (q : BluntQueue α) (value : α) : Bool × α × BluntQueue α :=
  match q.storage with
  | [] => (false, value, q)
  | v :: rest => (true, v, ⟨rest⟩)

/-- Source `std::shared_ptr<T> try_pop()`: if `storage_.empty()` return the null
handle; else a fresh `shared_ptr` to the front element, `pop_front()`. -/
def try_pop_ptr (q : BluntQueue α) : Option α × BluntQueue α :=
  match q.storage with
  | [] => (none, q)
  | v :: rest => (some v, ⟨rest⟩)

/-- Source `bool wait_and_pop(T& value)`: wait on `isPopulated_` until
`!storage_.empty()`, then pop the front into `value` and return `true`.
On an empty queue the sequential run blocks forever: `none`. -/
def wait_and_pop_ref (q : BluntQueue α) (value : α) : Option (Bool × α × BluntQueue α) :=
  match q.storage with
  | [] => none
  | v :: rest => some (true, v, ⟨rest⟩)

/-- Source `std::shared_ptr<T> wait_and_pop()`: wait until non-empty, then pop the
front into a fresh `shared_ptr`. On an empty queue the sequential run blocks
forever: `none`. -/
def wait_and_pop_ptr (q : BluntQueue α) : Option (Option α × BluntQueue α) :=
  match q.storage with
  | [] => none
  | v :: rest => some (some v, ⟨rest⟩)

/-- Source `bool empty() const`: `storage_.empty()`. -/
def isEmpty (q : BluntQueue α) : Bool := q.storage.isEmpty

/-- Source `size_type size() const`: `storage_.size()`. -/
def size (q : BluntQueue α) : Nat := q.storage.length

/-- Source `swap(BluntQueue& other)`: `storage_.swap(other.storage_)`. Result is
(this after, other after). -/
def swapQ (q other : BluntQueue α) : BluntQueue α × BluntQueue α :=
  (⟨other.storage⟩, ⟨q.storage⟩)

/-- Source `BluntQueue(const BluntQueue& other)`: `storage_.assign(other.storage_.cbegin(), other.storage_.cend())`. -/
def copyCtor (other : BluntQueue α) : BluntQueue α := ⟨other.storage⟩

/-- Source `operator=(const BluntQueue& other)`: `storage_.assign(other.storage_.begin(), other.storage_.end())`. -/
def copyAssign (q other : BluntQueue α) : BluntQueue α := ⟨other.storage⟩

/-- Source `operator==(const BluntQueue&, const BluntQueue&)` on the storages:
`one.storage_ == other.storage_`, `std::deque`'s element-wise equality. -/
def eqOp [DecidableEq α] (one other : BluntQueue α) : Bool :=
  decide (one.storage = other.storage)

end BluntQueue

/-- State of `FineQueue<T>`.

`nodes` lists the `data_` field (`shared_ptr<T>`, hence `Option α`) of each
node of the chain owned by `head_`, head node first; node `i`'s `next_`
points at node `i+1`, and the last listed node has `next_ == nullptr`.
`tailIdx` is the node index (from `head_`) that the raw alias `tail_`
points at. -/
structure FineQueue (α : Type) where
  nodes : List (Option α)
  tailIdx : Nat
  deriving Repr, DecidableEq

namespace FineQueue

/-- Source `FineQueue()`: `head_{ std::make_unique<Node>() }, tail_{ head_.get() }` —
one dummy node (null `data_`, null `next_`), `tail_` aliasing it. -/
def init : FineQueue α := ⟨[none], 0⟩

/-- Source `populate(data, next, tail)`: `tail->data_ = data; tail->next_ = next`
(a freshly made dummy node, so any previous successors of `tail` are
released); `tail = next.get()`. `data` is the `shared_ptr` argument. -/
def populate (data : Option α) (q : FineQueue α) : FineQueue α :=
  ⟨q.nodes.take q.tailIdx ++ [data, none], q.tailIdx + 1⟩

/-- Source `lock_push_tail(std::shared_ptr<T> data)`: make a fresh dummy, then
`populate(data, next, tail_)` under `tailMutex_`. -/
def lock_push_tail (q : FineQueue α) (data : Option α) : FineQueue α :=
  q.populate data

/-- Source `push(T value)`: `lock_push_tail(std::make_shared<T>(std::move(value)))`. -/
def push (q : FineQueue α) (value : α) : FineQueue α :=
  q.lock_push_tail (some value)

/-- Source `emplace(Args&&... args)`:
`lock_push_tail(std::make_shared<T>(std::forward<Args>(args)...))` — on the
already-constructed element it behaves exactly like `push`. -/
def emplace (q : FineQueue α) (value : α) : FineQueue α := q.push value

/-- Source `FineQueue(std::initializer_list<T> list)`: start from the default state
and `populate` a `make_shared` copy of each element in order. -/
def ofList (items : List α) : FineQueue α :=
  items.foldl (fun q v => q.populate (some v)) init

/-- Source `head_.get() == get_tail()` — the emptiness test: `head_` is node 0, so
the two pointers coincide exactly when `tail_` aliases node 0. -/
def headIsTail (q : FineQueue α) : Bool := q.tailIdx == 0

/-- Source `subscribe_head_data()`: `return head_->data_;` — the head node's
`shared_ptr`. (A null `head_` occurs only in a moved-from queue and is
never dereferenced by the member functions modelled here; the `[]` arm is
that unreachable dereference.) -/
def subscribe_head_data (q : FineQueue α) : Option α :=
  match q.nodes with
  | [] => none
  | d :: _ => d

/-- Source `pop_head()`: `head_ = std::move(head_->next_)` — the old head node is
released and every index from `head_` shifts down by one, so the `tail_`
alias now sits at index `tailIdx - 1`. (Called only behind the
`head_ != tail_` guard, so `tailIdx ≠ 0` at every call site.) -/
def pop_head (q : FineQueue α) : FineQueue α :=
  ⟨q.nodes.drop 1, q.tailIdx - 1⟩

/-- Source `std::shared_ptr<T> try_pop()`: under `headMutex_`, if
`head_.get() == get_tail()` return the null handle; else return
`subscribe_head_data()` and `pop_head()`. -/
def try_pop_ptr (q : FineQueue α) : Option α × FineQueue α :=
  if q.tailIdx = 0 then (none, q)
  else (q.subscribe_head_data, q.pop_head)

/-- Source `bool try_pop(T& value)`: under `headMutex_`, if
`head_.get() == get_tail()` return `false` (out-parameter untouched); else
`steal_head_data(value)` (`value = std::move(*(head_->data_))`) and
`pop_head()`, returning `true`. Dereferencing a null `data_` is undefined
behaviour, modelled as `none`; it is unreachable from the structural
invariant. A defined run yields
`some (returned bool, out-parameter after, queue after)`. -/
def try_pop_ref (q : FineQueue α) (value : α) : Option (Bool × α × FineQueue α) :=
  if q.tailIdx = 0 then some (false, value, q)
  else
    match q.subscribe_head_data with
    | some d => some (true, d, q.pop_head)
    | none => none

/-- Source `std::shared_ptr<T> wait_and_pop()`: `wait_for_head()` blocks on
`isPoppable_` until `head_.get() != get_tail()`; then subscribe and pop.
On an empty queue the sequential run blocks forever: `none`. -/
def wait_and_pop_ptr (q : FineQueue α) : Option (Option α × FineQueue α) :=
  if q.tailIdx = 0 then none
  else some (q.subscribe_head_data, q.pop_head)

/-- Source `void wait_and_pop(T& value)`: wait until `head_.get() != get_tail()`,
then `steal_head_data(value)` and `pop_head()`. Blocking forever on an empty
queue and the (invariant-unreachable) null-`data_` dereference are both
`none`; a defined run yields `some (out-parameter after, queue after)`. -/
def wait_and_pop_ref (q : FineQueue α) : Option (α × FineQueue α) :=
  if q.tailIdx = 0 then none
  else
    match q.subscribe_head_data with
    | some d => some (d, q.pop_head)
    | none => none

/-- The counting loop of `size()`: hop `i = i->next_` starting at `head_`
until `i == tail_`, i.e. `tailIdx` hops; the `[]` arm is the
(invariant-unreachable) walk past a null `next_`. -/
def size_walk : List (Option α) → Nat → Nat
  | _, 0 => 0
  | [], _ + 1 => 0
  | _ :: rest, n + 1 => size_walk rest n + 1

/-- Source `size_type size() const`: count nodes from `head_` to `get_tail()`. -/
def size (q : FineQueue α) : Nat := size_walk q.nodes q.tailIdx

/-- Source `bool empty() const`: `head_.get() == get_tail()`. -/
def isEmpty (q : FineQueue α) : Bool := q.tailIdx == 0

/-- Source `swap(FineQueue& other)`: under all four mutexes,
`std::swap(head_, other.head_); std::swap(tail_, other.tail_)`. Result is
(this after, other after). -/
def swapQ (q other : FineQueue α) : FineQueue α × FineQueue α :=
  (⟨other.nodes, other.tailIdx⟩, ⟨q.nodes, q.tailIdx⟩)

/-- The loop of `lock_traverse_push(other, tail)`: for `i` from
`other.head_.get()` until `other.get_tail()`, `populate` a
`make_shared<T>(*i->data_)` copy onto the destination. Walking past a null
`next_` or dereferencing a null `data_` is undefined behaviour (`none`);
both are unreachable from the structural invariant. -/
def traverse_push_walk : List (Option α) → Nat → FineQueue α → Option (FineQueue α)
  | _, 0, q => some q
  | [], _ + 1, _ => none
  | d :: rest, n + 1, q =>
    match d with
    | some v => traverse_push_walk rest n (q.populate (some v))
    | none => none

/-- Source `lock_traverse_push(const FineQueue& other, Node*& tail)` applied to the
destination queue `q`. -/
def lock_traverse_push (other q : FineQueue α) : Option (FineQueue α) :=
  traverse_push_walk other.nodes other.tailIdx q

/-- Source `FineQueue(const FineQueue& other)`: default-construct (one dummy) and
`lock_traverse_push(other, tail_)`. -/
def copyCtor (other : FineQueue α) : Option (FineQueue α) :=
  lock_traverse_push other init

/-- Source `operator=(const FineQueue& other)` (for a distinct source): build a
fresh chain beside a fresh dummy via `lock_traverse_push`, then install it as
`head_`/`tail_` under both mutexes, discarding the previous content. -/
def copyAssign (q other : FineQueue α) : Option (FineQueue α) :=
  lock_traverse_push other init

/-- The lockstep loop of `operator==(const FineQueue&, const FineQueue&)`:
advance both iterators from the heads while neither has reached its queue's
`tail_` and the dereferenced `data_` compare equal; report equality iff both
iterators stopped at their tails. The indices count the hops left to each
tail. Arms that walk past a null `next_` model the (invariant-unreachable)
undefined dereference as an immediate mismatch; `data_` pointers are
compared after dereference, so only the `some`/`some` comparison is
reachable from the invariant. -/
def eq_walk [DecidableEq α] : List (Option α) → Nat → List (Option α) → Nat → Bool
  | _, 0, _, 0 => true
  | _, 0, _, _ + 1 => false
  | _, _ + 1, _, 0 => false
  | [], _ + 1, _, _ + 1 => false
  | _ :: _, _ + 1, [], _ + 1 => false
  | x :: xs, n + 1, y :: ys, m + 1 =>
    if x = y then eq_walk xs n ys m else false

/-- Source `operator==(const FineQueue<T>& one, const FineQueue<T>& other)`:
the lockstep walk under all four mutexes. -/
def eqOp [DecidableEq α] (one other : FineQueue α) : Bool :=
  eq_walk one.nodes one.tailIdx other.nodes other.tailIdx

/-- Abstraction: the element sequence a `FineQueue` state holds — the
dereferenced `data_` of every node strictly before the `tail_` alias. -/
def toList (q : FineQueue α) : List α :=
  (q.nodes.take q.tailIdx).filterMap id

/-- The structural invariant of `FineQueue`: the `tail_` alias sits on the
last node of the chain, that node is a dummy (null `data_`), and every node
before it holds exactly one element. -/
def Inv (q : FineQueue α) : Prop :=
  q.nodes.drop q.tailIdx = [none] ∧ ∀ d ∈ q.nodes.take q.tailIdx, d.isSome

instance [DecidableEq α] (q : FineQueue α) : Decidable q.Inv := by
  unfold Inv; infer_instance

/-- The canonical state holding the element sequence `vs`: one data node per
element, in order, followed by the dummy that `tail_` aliases. -/
def ofSeq (vs : List α) : FineQueue α :=
  ⟨vs.map Option.some ++ [none], vs.length⟩

/-- Pushing a whole sequence, front element first. -/
def pushSeq (q : FineQueue α) (vs : List α) : FineQueue α :=
  vs.foldl (fun a v => a.populate (some v)) q

/-- Repeated `try_pop()` until it reports no value (fuel-bounded). -/
def drain : Nat → FineQueue α → List α
  | 0, _ => []
  | fuel + 1, q =>
    match q.try_pop_ptr with
    | (none, _) => []
    | (some v, q') => v :: drain fuel q'

end FineQueue

namespace BluntQueue

/-- Pushing a whole sequence, front element first. -/
def pushSeq (q : BluntQueue α) (vs : List α) : BluntQueue α := vs.foldl push q

/-- Repeated `try_pop()` until it reports no value (fuel-bounded). -/
def drain : Nat → BluntQueue α → List α
  | 0, _ => []
  | fuel + 1, q =>
    match q.try_pop_ptr with
    | (none, _) => []
    | (some v, q') => v :: drain fuel q'

end BluntQueue

/-- One queue-contract call, for replaying a whole operation sequence
(out-parameters of the `T&` pop forms start from a default-initialised
slot, as in the tests' `int front{}`). -/
inductive QOp (α : Type) where
  | push : α → QOp α
  | emplace : α → QOp α
  | tryPopRef : QOp α
  | tryPopPtr : QOp α
  | waitPopRef : QOp α
  | waitPopPtr : QOp α

/-- Replay a call sequence against `BluntQueue`, counting elements pushed
(`pu`) and elements successfully popped (`po`). A `wait_and_pop` against an
empty queue blocks forever: the run stops there. -/
def runBlunt [Inhabited α] : List (QOp α) → BluntQueue α → Nat → Nat →
    BluntQueue α × Nat × Nat
  | [], q, pu, po => (q, pu, po)
  | QOp.push v :: ops, q, pu, po => runBlunt ops (q.push v) (pu + 1) po
  | QOp.emplace v :: ops, q, pu, po => runBlunt ops (q.emplace v) (pu + 1) po
  | QOp.tryPopRef :: ops, q, pu, po =>
    runBlunt ops (q.try_pop_ref default).2.2 pu
      (if (q.try_pop_ref default).1 then po + 1 else po)
  | QOp.tryPopPtr :: ops, q, pu, po =>
    runBlunt ops q.try_pop_ptr.2 pu
      (if q.try_pop_ptr.1.isSome then po + 1 else po)
  | QOp.waitPopRef :: ops, q, pu, po =>
    match q.wait_and_pop_ref default with
    | none => (q, pu, po)
    | some r => runBlunt ops r.2.2 pu (po + 1)
  | QOp.waitPopPtr :: ops, q, pu, po =>
    match q.wait_and_pop_ptr with
    | none => (q, pu, po)
    | some r => runBlunt ops r.2 pu (po + 1)

/-- Replay a call sequence against `FineQueue`, counting pushes and
successful pops; blocked waits stop the run, and the invariant-unreachable
undefined arms stop it too. -/
def runFine [Inhabited α] : List (QOp α) → FineQueue α → Nat → Nat →
    FineQueue α × Nat × Nat
  | [], q, pu, po => (q, pu, po)
  | QOp.push v :: ops, q, pu, po => runFine ops (q.push v) (pu + 1) po
  | QOp.emplace v :: ops, q, pu, po => runFine ops (q.emplace v) (pu + 1) po
  | QOp.tryPopRef :: ops, q, pu, po =>
    match q.try_pop_ref default with
    | none => (q, pu, po)
    | some r => runFine ops r.2.2 pu (if r.1 then po + 1 else po)
  | QOp.tryPopPtr :: ops, q, pu, po =>
    runFine ops q.try_pop_ptr.2 pu
      (if q.try_pop_ptr.1.isSome then po + 1 else po)
  | QOp.waitPopRef :: ops, q, pu, po =>
    match q.wait_and_pop_ref with
    | none => (q, pu, po)
    | some r => runFine ops r.2 pu (po + 1)
  | QOp.waitPopPtr :: ops, q, pu, po =>
    match q.wait_and_pop_ptr with
    | none => (q, pu, po)
    | some r => runFine ops r.2 pu (po + 1)

/-- The simulation relation between the two designs: the `FineQueue` state is
structurally well-formed and abstracts to the exact element sequence the
`BluntQueue` deque holds. -/
def FineBluntSim (fq : FineQueue α) (bq : BluntQueue α) : Prop :=
  fq.Inv ∧ fq.toList = bq.storage

instance [DecidableEq α] (fq : FineQueue α) (bq : BluntQueue α) :
    Decidable (FineBluntSim fq bq) := by
  unfold FineBluntSim; infer_instance

/-- A `BluntQueue` object together with the identity of its `std::mutex
mutex_` member. Each live C++ object owns its own mutex, so two objects are
the same object exactly when their mutex identities coincide. -/
structure BluntQueueObj (α : Type) where
  mutexId : Nat
  storage : List α
  deriving Repr, DecidableEq

/-- Source `operator==(const BluntQueue<T>& one, const BluntQueue<T>& other)`
including its locking step
`std::scoped_lock<std::mutex, std::mutex> lock{ one.mutex_, other.mutex_ }`.
When `one` and `other` are the same object, the same non-recursive mutex is
acquired twice by one `std::lock`, which the standard leaves undefined
(deadlock-class misuse) — modelled as `none`. Otherwise both storages are
compared element-wise. -/
def BluntQueueObj.eqOp [DecidableEq α] (one other : BluntQueueObj α) : Option Bool :=
  if one.mutexId = other.mutexId then none
  else some (decide (one.storage = other.storage))

/-- A `FineQueue` object together with its identity (which fixes the
identities of its `headMutex_` and `tailMutex_` members). -/
structure FineQueueObj (α : Type) where
  instId : Nat
  state : FineQueue α
  deriving Repr, DecidableEq

/-- Source `operator==(const FineQueue<T>& one, const FineQueue<T>& other)` including
its locking step: `std::scoped_lock` over
`one.headMutex_, one.tailMutex_, other.headMutex_, other.tailMutex_`. When
`one` and `other` are the same object each of its two mutexes is acquired
twice by one `std::lock` — undefined (deadlock-class), modelled as `none`.
Otherwise the lockstep walk runs. -/
def FineQueueObj.eqOp [DecidableEq α] (one other : FineQueueObj α) : Option Bool :=
  if one.instId = other.instId then none
  else some (FineQueue.eqOp one.state other.state)

namespace FineQueue

theorem ofSeq_nil : (ofSeq [] : FineQueue α) = init := rfl

theorem toList_ofSeq (vs : List α) : (ofSeq vs).toList = vs := by
  simp [ofSeq, toList, List.take_left', List.filterMap_append]

theorem inv_ofSeq (vs : List α) : (ofSeq vs).Inv := by
  refine ⟨?_, ?_⟩
  · show List.drop vs.length (vs.map Option.some ++ [none]) = [none]
    rw [show vs.length = (vs.map Option.some).length by simp, List.drop_left]
  · intro d hd
    rw [show (ofSeq vs).nodes.take (ofSeq vs).tailIdx
        = vs.map Option.some from ?_] at hd
    · rcases List.mem_map.mp hd with ⟨v, _, rfl⟩; rfl
    · show List.take vs.length (vs.map Option.some ++ [none]) = _
      rw [show vs.length = (vs.map Option.some).length by simp, List.take_left]

/-- A list of non-null options is the `some`-image of its dereferences. -/
theorem eq_map_filterMap_of_isSome :
    ∀ (l : List (Option α)), (∀ d ∈ l, d.isSome) → l = (l.filterMap id).map Option.some
  | [], _ => rfl
  | d :: rest, h => by
    rcases Option.isSome_iff_exists.mp (h d (List.mem_cons_self d rest)) with ⟨v, rfl⟩
    have ih := eq_map_filterMap_of_isSome rest (fun x hx => h x (List.mem_cons_of_mem _ hx))
    simpa [List.filterMap_cons] using ih

/-- Every state satisfying the structural invariant is the canonical state of
its element sequence. -/
theorem Inv.eq_canonical {q : FineQueue α} (h : q.Inv) : q = ofSeq q.toList := by
  obtain ⟨hd, hs⟩ := h
  have hlt : q.tailIdx < q.nodes.length := by
    by_contra hge
    rw [List.drop_eq_nil_of_le (le_of_not_lt hge)] at hd
    exact List.cons_ne_nil _ _ hd.symm
  have htake : (q.nodes.take q.tailIdx).length = q.tailIdx :=
    List.length_take_of_le (le_of_lt hlt)
  have hcanon : q.nodes.take q.tailIdx = q.toList.map Option.some :=
    eq_map_filterMap_of_isSome _ hs
  have hlen : q.toList.length = q.tailIdx := by
    have := congrArg List.length hcanon
    simpa [htake] using this.symm
  have hnodes : q.nodes = q.toList.map Option.some ++ [none] := by
    conv_lhs => rw [← List.take_append_drop q.tailIdx q.nodes]
    rw [hcanon, hd]
  have hof : ofSeq q.toList = ⟨q.toList.map Option.some ++ [none], q.toList.length⟩ := rfl
  rw [hof, ← hnodes, hlen]

theorem inv_iff_canonical (q : FineQueue α) : q.Inv ↔ ∃ vs, q = ofSeq vs :=
  ⟨fun h => ⟨q.toList, h.eq_canonical⟩, fun ⟨vs, h⟩ => h ▸ inv_ofSeq vs⟩

theorem populate_ofSeq (vs : List α) (v : α) :
    (ofSeq vs).populate (some v) = ofSeq (vs ++ [v]) := by
  simp only [populate, ofSeq]
  rw [show vs.length = (vs.map Option.some).length by simp, List.take_left]
  simp

theorem pushSeq_ofSeq (ws : List α) : ∀ (vs : List α),
    pushSeq (ofSeq ws) vs = ofSeq (ws ++ vs) := by
  have key : ∀ (vs ws : List α), pushSeq (ofSeq ws) vs = ofSeq (ws ++ vs) := by
    intro vs
    induction vs with
    | nil => intro ws; simp [pushSeq]
    | cons v vs ih =>
      intro ws
      show pushSeq ((ofSeq ws).populate (some v)) vs = _
      rw [populate_ofSeq, ih]
      simp
  exact fun vs => key vs ws

theorem ofList_eq_ofSeq (vs : List α) : ofList vs = ofSeq vs := by
  have : ofList vs = pushSeq (ofSeq []) vs := rfl
  rw [this, pushSeq_ofSeq]; simp

theorem push_ofSeq (vs : List α) (v : α) : (ofSeq vs).push v = ofSeq (vs ++ [v]) :=
  populate_ofSeq vs v

theorem pop_head_ofSeq (v : α) (vs : List α) :
    (ofSeq (v :: vs)).pop_head = ofSeq vs := by
  simp [ofSeq, pop_head]

theorem subscribe_head_data_ofSeq (v : α) (vs : List α) :
    (ofSeq (v :: vs)).subscribe_head_data = some v := rfl

theorem tailIdx_ofSeq (vs : List α) : (ofSeq vs).tailIdx = vs.length := rfl

theorem try_pop_ptr_ofSeq_nil : (ofSeq ([] : List α)).try_pop_ptr = (none, ofSeq []) := rfl

theorem try_pop_ptr_ofSeq_cons (v : α) (vs : List α) :
    (ofSeq (v :: vs)).try_pop_ptr = (some v, ofSeq vs) := by
  simp [try_pop_ptr, tailIdx_ofSeq, subscribe_head_data_ofSeq, pop_head_ofSeq]

theorem try_pop_ref_ofSeq_nil (w : α) :
    (ofSeq ([] : List α)).try_pop_ref w = some (false, w, ofSeq []) := rfl

theorem try_pop_ref_ofSeq_cons (v : α) (vs : List α) (w : α) :
    (ofSeq (v :: vs)).try_pop_ref w = some (true, v, ofSeq vs) := by
  simp [try_pop_ref, tailIdx_ofSeq, subscribe_head_data_ofSeq, pop_head_ofSeq]

theorem wait_and_pop_ptr_ofSeq_nil : (ofSeq ([] : List α)).wait_and_pop_ptr = none := rfl

theorem wait_and_pop_ptr_ofSeq_cons (v : α) (vs : List α) :
    (ofSeq (v :: vs)).wait_and_pop_ptr = some (some v, ofSeq vs) := by
  simp [wait_and_pop_ptr, tailIdx_ofSeq, subscribe_head_data_ofSeq, pop_head_ofSeq]

theorem wait_and_pop_ref_ofSeq_nil : (ofSeq ([] : List α)).wait_and_pop_ref = none := rfl

theorem wait_and_pop_ref_ofSeq_cons (v : α) (vs : List α) :
    (ofSeq (v :: vs)).wait_and_pop_ref = some (v, ofSeq vs) := by
  simp [wait_and_pop_ref, tailIdx_ofSeq, subscribe_head_data_ofSeq, pop_head_ofSeq]

theorem size_walk_canonical : ∀ (vs : List α),
    size_walk (vs.map Option.some ++ [none]) vs.length = vs.length
  | [] => rfl
  | _ :: vs => by
    show size_walk (vs.map Option.some ++ [none]) vs.length + 1 = vs.length + 1
    rw [size_walk_canonical vs]

theorem size_ofSeq (vs : List α) : (ofSeq vs).size = vs.length :=
  size_walk_canonical vs

theorem isEmpty_ofSeq (vs : List α) : (ofSeq vs).isEmpty = vs.isEmpty := by
  cases vs <;> simp [isEmpty, ofSeq]

theorem traverse_push_walk_canonical : ∀ (vs : List α) (q : FineQueue α),
    traverse_push_walk (vs.map Option.some ++ [none]) vs.length q = some (pushSeq q vs)
  | [], q => rfl
  | v :: vs, q => by
    show traverse_push_walk (vs.map Option.some ++ [none]) vs.length (q.populate (some v))
        = some (pushSeq q (v :: vs))
    rw [traverse_push_walk_canonical vs]
    rfl

theorem lock_traverse_push_ofSeq (vs : List α) (q : FineQueue α) :
    lock_traverse_push (ofSeq vs) q = some (pushSeq q vs) :=
  traverse_push_walk_canonical vs q

theorem copyCtor_ofSeq (vs : List α) : copyCtor (ofSeq vs) = some (ofSeq vs) := by
  rw [copyCtor, lock_traverse_push_ofSeq, ← ofSeq_nil, pushSeq_ofSeq]
  simp

theorem copyAssign_ofSeq (q : FineQueue α) (vs : List α) :
    copyAssign q (ofSeq vs) = some (ofSeq vs) := by
  rw [copyAssign, lock_traverse_push_ofSeq, ← ofSeq_nil, pushSeq_ofSeq]
  simp

theorem eq_walk_canonical [DecidableEq α] : ∀ (xs ys : List α),
    eq_walk (xs.map Option.some ++ [none]) xs.length (ys.map Option.some ++ [none]) ys.length
      = decide (xs = ys)
  | [], [] => rfl
  | [], _ :: _ => rfl
  | _ :: _, [] => rfl
  | x :: xs, y :: ys => by
    show (if some x = some y
        then eq_walk (xs.map Option.some ++ [none]) xs.length
          (ys.map Option.some ++ [none]) ys.length
        else false) = decide (x :: xs = y :: ys)
    rw [eq_walk_canonical xs ys]
    by_cases hxy : x = y <;> simp [hxy]

theorem eqOp_ofSeq [DecidableEq α] (xs ys : List α) :
    eqOp (ofSeq xs) (ofSeq ys) = decide (xs = ys) :=
  eq_walk_canonical xs ys

theorem drain_ofSeq : ∀ (fuel : Nat) (vs : List α), vs.length ≤ fuel →
    drain fuel (ofSeq vs) = vs
  | 0, [], _ => rfl
  | _ + 1, [], _ => rfl
  | fuel + 1, v :: vs, h => by
    rw [show drain (fuel + 1) (ofSeq (v :: vs)) = v :: drain fuel (ofSeq vs) from rfl]
    rw [drain_ofSeq fuel vs (by simpa using h)]

end FineQueue

namespace BluntQueue

theorem pushSeq_storage : ∀ (vs : List α) (q : BluntQueue α),
    (pushSeq q vs).storage = q.storage ++ vs
  | [], q => by simp [pushSeq]
  | v :: vs, q => by
    show (pushSeq (q.push v) vs).storage = q.storage ++ v :: vs
    rw [pushSeq_storage vs]
    simp [push]

theorem drain_storage : ∀ (fuel : Nat) (q : BluntQueue α), q.storage.length ≤ fuel →
    drain fuel q = q.storage
  | 0, ⟨[]⟩, _ => rfl
  | fuel + 1, ⟨[]⟩, _ => rfl
  | fuel + 1, ⟨v :: rest⟩, h => by
    rw [show drain (fuel + 1) ⟨v :: rest⟩ = v :: drain fuel ⟨rest⟩ from rfl]
    rw [drain_storage fuel ⟨rest⟩ (by simpa using h)]

end BluntQueue

theorem runBlunt_conservation [Inhabited α] : ∀ (ops : List (QOp α))
    (q : BluntQueue α) (pu po : Nat),
    ((runBlunt ops q pu po).2.1 : Int) - (runBlunt ops q pu po).2.2
        - (runBlunt ops q pu po).1.size
      = (pu : Int) - po - q.size
  | [], q, pu, po => rfl
  | QOp.push v :: ops, q, pu, po => by
    rw [show runBlunt (QOp.push v :: ops) q pu po
        = runBlunt ops (q.push v) (pu + 1) po from rfl]
    rw [runBlunt_conservation ops]
    simp [BluntQueue.push, BluntQueue.size]
    omega
  | QOp.emplace v :: ops, q, pu, po => by
    rw [show runBlunt (QOp.emplace v :: ops) q pu po
        = runBlunt ops (q.push v) (pu + 1) po from rfl]
    rw [runBlunt_conservation ops]
    simp [BluntQueue.push, BluntQueue.size]
    omega
  | QOp.tryPopRef :: ops, ⟨[]⟩, pu, po => by
    rw [show runBlunt (QOp.tryPopRef :: ops) ⟨[]⟩ pu po
        = runBlunt ops ⟨[]⟩ pu po from rfl]
    rw [runBlunt_conservation ops]
  | QOp.tryPopRef :: ops, ⟨v :: rest⟩, pu, po => by
    rw [show runBlunt (QOp.tryPopRef :: ops) ⟨v :: rest⟩ pu po
        = runBlunt ops ⟨rest⟩ pu (po + 1) from rfl]
    rw [runBlunt_conservation ops]
    simp [BluntQueue.size]
    omega
  | QOp.tryPopPtr :: ops, ⟨[]⟩, pu, po => by
    rw [show runBlunt (QOp.tryPopPtr :: ops) ⟨[]⟩ pu po
        = runBlunt ops ⟨[]⟩ pu po from rfl]
    rw [runBlunt_conservation ops]
  | QOp.tryPopPtr :: ops, ⟨v :: rest⟩, pu, po => by
    rw [show runBlunt (QOp.tryPopPtr :: ops) ⟨v :: rest⟩ pu po
        = runBlunt ops ⟨rest⟩ pu (po + 1) from rfl]
    rw [runBlunt_conservation ops]
    simp [BluntQueue.size]
    omega
  | QOp.waitPopRef :: ops, ⟨[]⟩, pu, po => rfl
  | QOp.waitPopRef :: ops, ⟨v :: rest⟩, pu, po => by
    rw [show runBlunt (QOp.waitPopRef :: ops) ⟨v :: rest⟩ pu po
        = runBlunt ops ⟨rest⟩ pu (po + 1) from rfl]
    rw [runBlunt_conservation ops]
    simp [BluntQueue.size]
    omega
  | QOp.waitPopPtr :: ops, ⟨[]⟩, pu, po => rfl
  | QOp.waitPopPtr :: ops, ⟨v :: rest⟩, pu, po => by
    rw [show runBlunt (QOp.waitPopPtr :: ops) ⟨v :: rest⟩ pu po
        = runBlunt ops ⟨rest⟩ pu (po + 1) from rfl]
    rw [runBlunt_conservation ops]
    simp [BluntQueue.size]
    omega

theorem runFine_conservation [Inhabited α] : ∀ (ops : List (QOp α))
    (vs : List α) (pu po : Nat),
    ((runFine ops (FineQueue.ofSeq vs) pu po).2.1 : Int)
        - (runFine ops (FineQueue.ofSeq vs) pu po).2.2
        - (runFine ops (FineQueue.ofSeq vs) pu po).1.size
      = (pu : Int) - po - vs.length
  | [], vs, pu, po => by
    show (pu : Int) - po - (FineQueue.ofSeq vs).size = _
    rw [FineQueue.size_ofSeq]
  | QOp.push v :: ops, vs, pu, po => by
    rw [show runFine (QOp.push v :: ops) (FineQueue.ofSeq vs) pu po
        = runFine ops ((FineQueue.ofSeq vs).push v) (pu + 1) po from rfl]
    rw [FineQueue.push_ofSeq, runFine_conservation ops]
    simp
    omega
  | QOp.emplace v :: ops, vs, pu, po => by
    rw [show runFine (QOp.emplace v :: ops) (FineQueue.ofSeq vs) pu po
        = runFine ops ((FineQueue.ofSeq vs).push v) (pu + 1) po from rfl]
    rw [FineQueue.push_ofSeq, runFine_conservation ops]
    simp
    omega
  | QOp.tryPopRef :: ops, [], pu, po => by
    rw [show runFine (QOp.tryPopRef :: ops) (FineQueue.ofSeq []) pu po
        = runFine ops (FineQueue.ofSeq []) pu po from rfl]
    rw [runFine_conservation ops]
  | QOp.tryPopRef :: ops, v :: vs, pu, po => by
    rw [show runFine (QOp.tryPopRef :: ops) (FineQueue.ofSeq (v :: vs)) pu po
        = runFine ops (FineQueue.ofSeq vs) pu (po + 1) from rfl]
    rw [runFine_conservation ops]
    simp
    omega
  | QOp.tryPopPtr :: ops, [], pu, po => by
    rw [show runFine (QOp.tryPopPtr :: ops) (FineQueue.ofSeq []) pu po
        = runFine ops (FineQueue.ofSeq []) pu po from rfl]
    rw [runFine_conservation ops]
  | QOp.tryPopPtr :: ops, v :: vs, pu, po => by
    rw [show runFine (QOp.tryPopPtr :: ops) (FineQueue.ofSeq (v :: vs)) pu po
        = runFine ops (FineQueue.ofSeq vs) pu (po + 1) from rfl]
    rw [runFine_conservation ops]
    simp
    omega
  | QOp.waitPopRef :: ops, [], pu, po => by
    show (pu : Int) - po - (FineQueue.ofSeq []).size = _
    rw [FineQueue.size_ofSeq]
  | QOp.waitPopRef :: ops, v :: vs, pu, po => by
    rw [show runFine (QOp.waitPopRef :: ops) (FineQueue.ofSeq (v :: vs)) pu po
        = runFine ops (FineQueue.ofSeq vs) pu (po + 1) from rfl]
    rw [runFine_conservation ops]
    simp
    omega
  | QOp.waitPopPtr :: ops, [], pu, po => by
    show (pu : Int) - po - (FineQueue.ofSeq []).size = _
    rw [FineQueue.size_ofSeq]
  | QOp.waitPopPtr :: ops, v :: vs, pu, po => by
    rw [show runFine (QOp.waitPopPtr :: ops) (FineQueue.ofSeq (v :: vs)) pu po
        = runFine ops (FineQueue.ofSeq vs) pu (po + 1) from rfl]
    rw [runFine_conservation ops]
    simp
    omega

theorem FineBluntSim.fine_canonical {fq : FineQueue α} {bq : BluntQueue α}
    (h : FineBluntSim fq bq) : fq = FineQueue.ofSeq bq.storage := by
  rw [← h.2]; exact h.1.eq_canonical

theorem fineBluntSim_ofSeq (vs : List α) :
    FineBluntSim (FineQueue.ofSeq vs) ⟨vs⟩ :=
  ⟨FineQueue.inv_ofSeq vs, FineQueue.toList_ofSeq vs⟩

/-- Claim C1 (FIFO order): pushing any sequence onto an empty queue of either
variant and then repeatedly calling `try_pop` returns exactly the pushed
values in push order; concretely, pushing 8, 13, 62 on an empty queue and
calling `try_pop` four times yields 8, then 13, then 62, then no value, on
both variants. -/
theorem claim_C1_fifo_order {α : Type} (vs : List α) :
    BluntQueue.drain (BluntQueue.pushSeq BluntQueue.init vs).size
        (BluntQueue.pushSeq BluntQueue.init vs) = vs
  ∧ FineQueue.drain (FineQueue.pushSeq FineQueue.init vs).size
        (FineQueue.pushSeq FineQueue.init vs) = vs
  ∧ (let q := ((BluntQueue.init.push (8 : Nat)).push 13).push 62
     let s1 := q.try_pop_ptr
     let s2 := s1.2.try_pop_ptr
     let s3 := s2.2.try_pop_ptr
     let s4 := s3.2.try_pop_ptr
     s1.1 = some 8 ∧ s2.1 = some 13 ∧ s3.1 = some 62 ∧ s4.1 = none)
  ∧ (let q := ((FineQueue.init.push (8 : Nat)).push 13).push 62
     let s1 := q.try_pop_ptr
     let s2 := s1.2.try_pop_ptr
     let s3 := s2.2.try_pop_ptr
     let s4 := s3.2.try_pop_ptr
     s1.1 = some 8 ∧ s2.1 = some 13 ∧ s3.1 = some 62 ∧ s4.1 = none) := by
  refine ⟨?_, ?_, by decide, by decide⟩
  · have hst : (BluntQueue.pushSeq BluntQueue.init vs).storage = vs := by
      rw [BluntQueue.pushSeq_storage]; rfl
    rw [BluntQueue.drain_storage _ _ (by rw [hst, BluntQueue.size, hst]), hst]
  · have hq : FineQueue.pushSeq FineQueue.init vs = FineQueue.ofSeq vs := by
      rw [← FineQueue.ofSeq_nil, FineQueue.pushSeq_ofSeq]; rfl
    rw [hq, FineQueue.size_ofSeq, FineQueue.drain_ofSeq _ _ (le_refl _)]

/-- Claim C3 (conservation of elements): replaying any finite sequence of
push, emplace, try_pop and wait_and_pop calls on an initially empty queue of
either variant, the number of successfully popped elements plus the number
of elements remaining equals the number of elements pushed. -/
theorem claim_C3_conservation {α : Type} [Inhabited α] (ops : List (QOp α)) :
    ((runBlunt ops BluntQueue.init 0 0).2.2 + (runBlunt ops BluntQueue.init 0 0).1.size
      = (runBlunt ops BluntQueue.init 0 0).2.1)
  ∧ ((runFine ops FineQueue.init 0 0).2.2 + (runFine ops FineQueue.init 0 0).1.size
      = (runFine ops FineQueue.init 0 0).2.1) := by
  constructor
  · have h := runBlunt_conservation ops BluntQueue.init 0 0
    have h0 : (BluntQueue.init : BluntQueue α).size = 0 := rfl
    rw [h0] at h
    omega
  · have h := runFine_conservation ops [] 0 0
    rw [FineQueue.ofSeq_nil] at h
    simp only [List.length_nil] at h
    omega

/-- Claim C5 (empty-queue try_pop): on an empty queue of either variant,
the boolean form of `try_pop` returns `false` and the pointer form returns
the null handle; both return normally (the model is a total function — no
exception-like mechanism, no blocking) and leave the queue unchanged. -/
theorem claim_C5_empty_try_pop {α : Type} :
    (∀ (bq : BluntQueue α) (v : α), bq.isEmpty = true →
        bq.try_pop_ref v = (false, v, bq) ∧ bq.try_pop_ptr = (none, bq))
  ∧ (∀ (fq : FineQueue α) (v : α), fq.isEmpty = true →
        fq.try_pop_ref v = some (false, v, fq) ∧ fq.try_pop_ptr = (none, fq)) := by
  constructor
  · rintro ⟨storage⟩ v h
    cases storage with
    | nil => exact ⟨rfl, rfl⟩
    | cons x rest => simp [BluntQueue.isEmpty] at h
  · intro fq v h
    have h0 : fq.tailIdx = 0 := by simpa [FineQueue.isEmpty] using h
    exact ⟨by simp [FineQueue.try_pop_ref, h0], by simp [FineQueue.try_pop_ptr, h0]⟩

/-- Claim C5 witness: instantiated on the concrete empty queues. -/
theorem claim_C5_empty_try_pop_witness :
    (BluntQueue.init : BluntQueue Nat).isEmpty = true
  ∧ (FineQueue.init : FineQueue Nat).isEmpty = true
  ∧ (BluntQueue.init : BluntQueue Nat).try_pop_ref 7
      = (false, 7, BluntQueue.init)
  ∧ (FineQueue.init : FineQueue Nat).try_pop_ptr = (none, FineQueue.init) := by
  refine ⟨by decide, by decide, ?_, ?_⟩
  · exact ((claim_C5_empty_try_pop.1 BluntQueue.init 7) (by decide)).1
  · exact ((claim_C5_empty_try_pop.2 FineQueue.init 7) (by decide)).2

/-- Claim C9 (wait_and_pop on a non-empty queue): on any non-empty queue of
either variant, `wait_and_pop` removes the front element and returns it —
by out-parameter or by managed pointer — without waiting (the sequential
model returns a value immediately), and its result and resulting queue
state coincide with those of a successful `try_pop`. -/
theorem claim_C9_wait_pop_nonempty {α : Type} :
    (∀ bq : BluntQueue α, bq.isEmpty = false →
        ∃ v rest, bq.storage = v :: rest
      ∧ (∀ w, bq.wait_and_pop_ref w = some (true, v, ⟨rest⟩))
      ∧ bq.wait_and_pop_ptr = some (some v, ⟨rest⟩)
      ∧ (∀ w, bq.wait_and_pop_ref w = some (bq.try_pop_ref w))
      ∧ bq.wait_and_pop_ptr = some bq.try_pop_ptr)
  ∧ (∀ fq : FineQueue α, fq.Inv → fq.isEmpty = false →
        ∃ v vs, fq.toList = v :: vs
      ∧ fq.wait_and_pop_ref = some (v, FineQueue.ofSeq vs)
      ∧ fq.wait_and_pop_ptr = some (some v, FineQueue.ofSeq vs)
      ∧ (∀ w, fq.try_pop_ref w = some (true, v, FineQueue.ofSeq vs))
      ∧ fq.wait_and_pop_ptr = some fq.try_pop_ptr) := by
  constructor
  · rintro ⟨storage⟩ h
    cases storage with
    | nil => simp [BluntQueue.isEmpty] at h
    | cons v rest =>
      exact ⟨v, rest, rfl, fun w => rfl, rfl, fun w => rfl, rfl⟩
  · intro fq hInv h
    obtain ⟨vs, rfl⟩ := (FineQueue.inv_iff_canonical fq).mp hInv
    cases vs with
    | nil => simp [FineQueue.isEmpty_ofSeq] at h
    | cons v vs =>
      refine ⟨v, vs, ?_, ?_, ?_, ?_, ?_⟩
      · rw [FineQueue.toList_ofSeq]
      · rw [FineQueue.wait_and_pop_ref_ofSeq_cons]
      · rw [FineQueue.wait_and_pop_ptr_ofSeq_cons]
      · intro w; rw [FineQueue.try_pop_ref_ofSeq_cons]
      · rw [FineQueue.wait_and_pop_ptr_ofSeq_cons, FineQueue.try_pop_ptr_ofSeq_cons]

/-- Claim C9 witness: instantiated on concrete one- and two-element queues. -/
theorem claim_C9_wait_pop_nonempty_witness :
    (BluntQueue.ofList [4, 9] : BluntQueue Nat).isEmpty = false
  ∧ (FineQueue.ofList [4, 9] : FineQueue Nat).Inv
  ∧ (∃ v rest, (BluntQueue.ofList [4, 9] : BluntQueue Nat).storage = v :: rest
      ∧ (∀ w, (BluntQueue.ofList [4, 9]).wait_and_pop_ref w = some (true, v, ⟨rest⟩))
      ∧ (BluntQueue.ofList [4, 9]).wait_and_pop_ptr = some (some v, ⟨rest⟩)
      ∧ (∀ w, (BluntQueue.ofList [4, 9]).wait_and_pop_ref w
          = some ((BluntQueue.ofList [4, 9]).try_pop_ref w))
      ∧ (BluntQueue.ofList [4, 9]).wait_and_pop_ptr
          = some (BluntQueue.ofList [4, 9]).try_pop_ptr)
  ∧ (∃ v vs, (FineQueue.ofList [4, 9] : FineQueue Nat).toList = v :: vs
      ∧ (FineQueue.ofList [4, 9]).wait_and_pop_ref = some (v, FineQueue.ofSeq vs)
      ∧ (FineQueue.ofList [4, 9]).wait_and_pop_ptr = some (some v, FineQueue.ofSeq vs)
      ∧ (∀ w, (FineQueue.ofList [4, 9]).try_pop_ref w = some (true, v, FineQueue.ofSeq vs))
      ∧ (FineQueue.ofList [4, 9]).wait_and_pop_ptr
          = some (FineQueue.ofList [4, 9]).try_pop_ptr) := by
  refine ⟨by decide, by decide, ?_, ?_⟩
  · exact claim_C9_wait_pop_nonempty.1 (BluntQueue.ofList [4, 9]) (by decide)
  · exact claim_C9_wait_pop_nonempty.2 (FineQueue.ofList [4, 9]) (by decide) (by decide)

/-- Claim C6 counterexample: the claim asserts that `a == a` returns `true`
for every queue `a`, "including the self-comparison a == a on one instance".
On one instance, `operator==` acquires `one.mutex_` and `other.mutex_` in a
single `std::scoped_lock` — the same non-recursive mutex twice, which is
undefined behaviour (a deadlock-class misuse) — so the self-comparison of
one concrete instance holding 8, 13, 62 does not return `true`. -/
theorem claim_C6_equality_counterexample :
    BluntQueueObj.eqOp ⟨0, ([8, 13, 62] : List Nat)⟩ ⟨0, [8, 13, 62]⟩
      ≠ some true := by decide

/-- Claim C6 as amended: `operator==` on two *distinct* instances of the same
variant returns `true` iff the two queues hold element-wise equal sequences,
and over distinct instances it is an equivalence: reflexive over snapshots
(two distinct instances with the same content — e.g. built from the same
initializer sequence — compare equal), symmetric, and transitive; the
self-comparison `a == a` on one single instance, however, double-locks that
instance's mutex(es) inside one `std::scoped_lock` and is undefined
behaviour (deadlock), returning no verdict at all. -/
theorem claim_C6_equality_equivalence_amended {α : Type} [DecidableEq α] :
    (∀ a : BluntQueueObj α, a.eqOp a = none)
  ∧ (∀ a b : BluntQueueObj α, a.mutexId ≠ b.mutexId →
        (a.eqOp b = some true ↔ a.storage = b.storage))
  ∧ (∀ a b : BluntQueueObj α, a.eqOp b = some true → b.eqOp a = some true)
  ∧ (∀ a b c : BluntQueueObj α, a.eqOp b = some true → b.eqOp c = some true →
        a.mutexId ≠ c.mutexId → a.eqOp c = some true)
  ∧ (∀ (i j : Nat) (vs : List α), i ≠ j →
        BluntQueueObj.eqOp ⟨i, vs⟩ ⟨j, vs⟩ = some true)
  ∧ (∀ a : FineQueueObj α, a.eqOp a = none)
  ∧ (∀ a b : FineQueueObj α, a.instId ≠ b.instId → a.state.Inv → b.state.Inv →
        (a.eqOp b = some true ↔ a.state.toList = b.state.toList))
  ∧ (∀ a b : FineQueueObj α, a.state.Inv → b.state.Inv →
        a.eqOp b = some true → b.eqOp a = some true)
  ∧ (∀ a b c : FineQueueObj α, a.state.Inv → b.state.Inv → c.state.Inv →
        a.eqOp b = some true → b.eqOp c = some true → a.instId ≠ c.instId →
        a.eqOp c = some true)
  ∧ (∀ (i j : Nat) (vs : List α), i ≠ j →
        FineQueueObj.eqOp ⟨i, FineQueue.ofList vs⟩ ⟨j, FineQueue.ofList vs⟩
          = some true) := by
  have bluntIff : ∀ a b : BluntQueueObj α, a.mutexId ≠ b.mutexId →
      (a.eqOp b = some true ↔ a.storage = b.storage) := by
    intro a b hne
    rw [BluntQueueObj.eqOp, if_neg hne]
    simp
  have bluntIds : ∀ a b : BluntQueueObj α, a.eqOp b = some true →
      a.mutexId ≠ b.mutexId := by
    intro a b hab
    intro hid
    rw [BluntQueueObj.eqOp, if_pos hid] at hab
    cases hab
  have fineIff : ∀ a b : FineQueueObj α, a.instId ≠ b.instId →
      a.state.Inv → b.state.Inv →
      (a.eqOp b = some true ↔ a.state.toList = b.state.toList) := by
    intro a b hne ha hb
    obtain ⟨xs, hx⟩ := (FineQueue.inv_iff_canonical a.state).mp ha
    obtain ⟨ys, hy⟩ := (FineQueue.inv_iff_canonical b.state).mp hb
    rw [FineQueueObj.eqOp, if_neg hne, hx, hy, FineQueue.eqOp_ofSeq,
      FineQueue.toList_ofSeq, FineQueue.toList_ofSeq]
    simp
  have fineIds : ∀ a b : FineQueueObj α, a.eqOp b = some true →
      a.instId ≠ b.instId := by
    intro a b hab hid
    rw [FineQueueObj.eqOp, if_pos hid] at hab
    cases hab
  refine ⟨?_, bluntIff, ?_, ?_, ?_, ?_, fineIff, ?_, ?_, ?_⟩
  · intro a; rw [BluntQueueObj.eqOp, if_pos rfl]
  · intro a b hab
    have hne := bluntIds a b hab
    exact (bluntIff b a (Ne.symm hne)).mpr ((bluntIff a b hne).mp hab).symm
  · intro a b c hab hbc hac
    exact (bluntIff a c hac).mpr
      (((bluntIff a b (bluntIds a b hab)).mp hab).trans
        ((bluntIff b c (bluntIds b c hbc)).mp hbc))
  · intro i j vs hij
    exact (bluntIff ⟨i, vs⟩ ⟨j, vs⟩ hij).mpr rfl
  · intro a; rw [FineQueueObj.eqOp, if_pos rfl]
  · intro a b ha hb hab
    have hne := fineIds a b hab
    exact (fineIff b a (Ne.symm hne) hb ha).mpr ((fineIff a b hne ha hb).mp hab).symm
  · intro a b c ha hb hc hab hbc hac
    exact (fineIff a c hac ha hc).mpr
      (((fineIff a b (fineIds a b hab) ha hb).mp hab).trans
        ((fineIff b c (fineIds b c hbc) hb hc).mp hbc))
  · intro i j vs hij
    have hInv : (FineQueue.ofList vs).Inv := by
      rw [FineQueue.ofList_eq_ofSeq]; exact FineQueue.inv_ofSeq vs
    exact (fineIff ⟨i, FineQueue.ofList vs⟩ ⟨j, FineQueue.ofList vs⟩ hij hInv hInv).mpr rfl

/-- Claim C6 amended witness: concrete distinct instances built from the same
initializer sequence compare equal, in both variants. -/
theorem claim_C6_equality_equivalence_amended_witness :
    ((0 : Nat) ≠ 1)
  ∧ BluntQueueObj.eqOp ⟨0, ([8, 13, 62] : List Nat)⟩ ⟨1, [8, 13, 62]⟩ = some true
  ∧ FineQueueObj.eqOp ⟨0, FineQueue.ofList ([8, 13, 62] : List Nat)⟩
      ⟨1, FineQueue.ofList [8, 13, 62]⟩ = some true := by
  refine ⟨by decide, ?_, ?_⟩
  · exact claim_C6_equality_equivalence_amended.2.2.2.2.1 0 1 [8, 13, 62] (by decide)
  · exact claim_C6_equality_equivalence_amended.2.2.2.2.2.2.2.2.2 0 1 [8, 13, 62]
      (by decide)

/-- Claim C7 (swap exchange): for queues `a` and `b` of the same variant,
after `a.swap(b)` the first queue holds exactly the element sequence `b` held
before the swap and the second holds what `a` held before, verified by
`operator==` against copies taken before the swap. -/
theorem claim_C7_swap_exchange {α : Type} [DecidableEq α] :
    (∀ a b : BluntQueue α,
        BluntQueue.eqOp (a.swapQ b).1 (BluntQueue.copyCtor b) = true
      ∧ BluntQueue.eqOp (a.swapQ b).2 (BluntQueue.copyCtor a) = true)
  ∧ (∀ a b : FineQueue α, a.Inv → b.Inv →
        ∀ ca cb, FineQueue.copyCtor a = some ca → FineQueue.copyCtor b = some cb →
          FineQueue.eqOp (a.swapQ b).1 cb = true
        ∧ FineQueue.eqOp (a.swapQ b).2 ca = true) := by
  constructor
  · intro a b
    exact ⟨by simp [BluntQueue.eqOp, BluntQueue.swapQ, BluntQueue.copyCtor],
      by simp [BluntQueue.eqOp, BluntQueue.swapQ, BluntQueue.copyCtor]⟩
  · intro a b ha hb ca cb hca hcb
    obtain ⟨as, rfl⟩ := (FineQueue.inv_iff_canonical a).mp ha
    obtain ⟨bs, rfl⟩ := (FineQueue.inv_iff_canonical b).mp hb
    rw [FineQueue.copyCtor_ofSeq] at hca hcb
    cases hca; cases hcb
    constructor
    · show FineQueue.eqOp (FineQueue.ofSeq bs) (FineQueue.ofSeq bs) = true
      rw [FineQueue.eqOp_ofSeq]; simp
    · show FineQueue.eqOp (FineQueue.ofSeq as) (FineQueue.ofSeq as) = true
      rw [FineQueue.eqOp_ofSeq]; simp

/-- Claim C7 witness: the concrete swap of queues holding 8, 13, 62 and
62, 13, 8, against pre-swap copies. -/
theorem claim_C7_swap_exchange_witness :
    (FineQueue.ofList ([8, 13, 62] : List Nat)).Inv
  ∧ (FineQueue.ofList ([62, 13, 8] : List Nat)).Inv
  ∧ BluntQueue.eqOp
      ((BluntQueue.ofList ([8, 13, 62] : List Nat)).swapQ
        (BluntQueue.ofList [62, 13, 8])).1
      (BluntQueue.copyCtor (BluntQueue.ofList [62, 13, 8])) = true
  ∧ FineQueue.copyCtor (FineQueue.ofList ([62, 13, 8] : List Nat))
      = some (FineQueue.ofList [62, 13, 8])
  ∧ FineQueue.eqOp
      ((FineQueue.ofList ([8, 13, 62] : List Nat)).swapQ
        (FineQueue.ofList [62, 13, 8])).1
      (FineQueue.ofList [62, 13, 8]) = true := by
  refine ⟨by decide, by decide, ?_, by decide, ?_⟩
  · exact (claim_C7_swap_exchange.1 (BluntQueue.ofList [8, 13, 62])
      (BluntQueue.ofList [62, 13, 8])).1
  · exact ((claim_C7_swap_exchange.2 (FineQueue.ofList [8, 13, 62])
      (FineQueue.ofList [62, 13, 8]) (by decide) (by decide)
      (FineQueue.ofList [8, 13, 62]) (FineQueue.ofList [62, 13, 8])
      (by decide) (by decide))).1

/-- Claim C8 (copy independence): copy construction and copy assignment
duplicate the element sequence: the copy compares equal to the original; a
subsequent `push x` on the original leaves the copy equal to the original's
pre-push state and unequal to the pushed original, and pushing onto the copy
leaves the original unchanged (the mutated copy no longer equals it). -/
theorem claim_C8_copy_independence {α : Type} [DecidableEq α] :
    (∀ (q t : BluntQueue α) (x : α),
        BluntQueue.eqOp (BluntQueue.copyCtor q) q = true
      ∧ BluntQueue.eqOp (BluntQueue.copyCtor q) (q.push x) = false
      ∧ BluntQueue.eqOp ((BluntQueue.copyCtor q).push x) q = false
      ∧ BluntQueue.eqOp (BluntQueue.copyAssign t q) q = true
      ∧ BluntQueue.eqOp (BluntQueue.copyAssign t q) (q.push x) = false)
  ∧ (∀ (q t : FineQueue α) (x : α), q.Inv →
        ∃ c, FineQueue.copyCtor q = some c
      ∧ FineQueue.copyAssign t q = some c
      ∧ FineQueue.eqOp c q = true
      ∧ FineQueue.eqOp c (q.push x) = false
      ∧ FineQueue.eqOp (c.push x) q = false) := by
  have list_ne : ∀ (l : List α) (x : α), l ≠ l ++ [x] := by
    intro l x h
    have := congrArg List.length h
    simp at this
  constructor
  · intro q t x
    refine ⟨?_, ?_, ?_, ?_, ?_⟩ <;>
      simp [BluntQueue.eqOp, BluntQueue.copyCtor, BluntQueue.copyAssign,
        BluntQueue.push, list_ne]
  · intro q t x hq
    obtain ⟨vs, rfl⟩ := (FineQueue.inv_iff_canonical q).mp hq
    refine ⟨FineQueue.ofSeq vs, FineQueue.copyCtor_ofSeq vs,
      FineQueue.copyAssign_ofSeq t vs, ?_, ?_, ?_⟩
    · rw [FineQueue.eqOp_ofSeq]; simp
    · rw [FineQueue.push_ofSeq, FineQueue.eqOp_ofSeq]
      simp [list_ne]
    · rw [FineQueue.push_ofSeq, FineQueue.eqOp_ofSeq]
      simp

/-- Claim C8 witness: the concrete queue holding 8, 13 with 62 pushed. -/
theorem claim_C8_copy_independence_witness :
    (FineQueue.ofList ([8, 13] : List Nat)).Inv
  ∧ BluntQueue.eqOp (BluntQueue.copyCtor (BluntQueue.ofList ([8, 13] : List Nat)))
      ((BluntQueue.ofList [8, 13]).push 62) = false
  ∧ (∃ c, FineQueue.copyCtor (FineQueue.ofList ([8, 13] : List Nat)) = some c
      ∧ FineQueue.copyAssign (FineQueue.ofList [1]) (FineQueue.ofList [8, 13]) = some c
      ∧ FineQueue.eqOp c (FineQueue.ofList [8, 13]) = true
      ∧ FineQueue.eqOp c ((FineQueue.ofList [8, 13]).push 62) = false
      ∧ FineQueue.eqOp (c.push 62) (FineQueue.ofList [8, 13]) = false) := by
  refine ⟨by decide, ?_, ?_⟩
  · exact ((claim_C8_copy_independence.1 (BluntQueue.ofList [8, 13])
      (BluntQueue.ofList [1]) 62)).2.1
  · exact claim_C8_copy_independence.2 (FineQueue.ofList [8, 13])
      (FineQueue.ofList [1]) 62 (by decide)

/-- Claim C10 (failure leaves the out-parameter alone): on an empty queue of
either variant, the out-parameter form `try_pop(value)` returns `false`
before touching the caller-supplied slot — the out-parameter still holds its
initial value and the queue is unmodified. -/
theorem claim_C10_try_pop_ref_untouched {α : Type} :
    (∀ (bq : BluntQueue α) (v : α), bq.isEmpty = true →
        bq.try_pop_ref v = (false, v, bq))
  ∧ (∀ (fq : FineQueue α) (v : α), fq.isEmpty = true →
        fq.try_pop_ref v = some (false, v, fq)) := by
  constructor
  · rintro ⟨storage⟩ v h
    cases storage with
    | nil => rfl
    | cons x rest => simp [BluntQueue.isEmpty] at h
  · intro fq v h
    have h0 : fq.tailIdx = 0 := by simpa [FineQueue.isEmpty] using h
    simp [FineQueue.try_pop_ref, h0]

/-- Claim C2 (observational equivalence of the two designs): the simulation
relation `FineBluntSim` (the fine queue is well-formed and abstracts to the
blunt queue's element sequence) is established by construction from the same
initial sequence and preserved by every contract operation, and related
queues return the same visible results: the same popped values, booleans,
emptiness flags, sizes and equality verdicts — so the two designs are
interchangeable. (`wait_and_pop(T&)` returns `bool` on `BluntQueue` and
`void` on `FineQueue`; the comparable observables — blocking behaviour and
the value delivered through the out-parameter — agree.) -/
theorem claim_C2_observational_equivalence {α : Type} [DecidableEq α] :
    (∀ vs : List α, FineBluntSim (FineQueue.ofList vs) (BluntQueue.ofList vs))
  ∧ (∀ (fq : FineQueue α) (bq : BluntQueue α), FineBluntSim fq bq →
        (∀ v, FineBluntSim (fq.push v) (bq.push v))
      ∧ (∀ v, FineBluntSim (fq.emplace v) (bq.emplace v))
      ∧ fq.try_pop_ptr.1 = bq.try_pop_ptr.1
      ∧ FineBluntSim fq.try_pop_ptr.2 bq.try_pop_ptr.2
      ∧ (∀ w, ∃ r, fq.try_pop_ref w = some r
          ∧ r.1 = (bq.try_pop_ref w).1
          ∧ r.2.1 = (bq.try_pop_ref w).2.1
          ∧ FineBluntSim r.2.2 (bq.try_pop_ref w).2.2)
      ∧ ((fq.wait_and_pop_ptr = none ∧ bq.wait_and_pop_ptr = none)
          ∨ ∃ p b, fq.wait_and_pop_ptr = some p ∧ bq.wait_and_pop_ptr = some b
              ∧ p.1 = b.1 ∧ FineBluntSim p.2 b.2)
      ∧ (∀ w, (fq.wait_and_pop_ref = none ∧ bq.wait_and_pop_ref w = none)
          ∨ ∃ p b, fq.wait_and_pop_ref = some p ∧ bq.wait_and_pop_ref w = some b
              ∧ b.1 = true ∧ p.1 = b.2.1 ∧ FineBluntSim p.2 b.2.2)
      ∧ fq.isEmpty = bq.isEmpty
      ∧ fq.size = bq.size
      ∧ (∀ (fq2 : FineQueue α) (bq2 : BluntQueue α), FineBluntSim fq2 bq2 →
            FineBluntSim (fq.swapQ fq2).1 (bq.swapQ bq2).1
          ∧ FineBluntSim (fq.swapQ fq2).2 (bq.swapQ bq2).2
          ∧ FineQueue.eqOp fq fq2 = BluntQueue.eqOp bq bq2)
      ∧ (∃ c, FineQueue.copyCtor fq = some c
          ∧ FineBluntSim c (BluntQueue.copyCtor bq))
      ∧ (∀ (fq0 : FineQueue α) (bq0 : BluntQueue α),
            ∃ c, FineQueue.copyAssign fq0 fq = some c
          ∧ FineBluntSim c (BluntQueue.copyAssign bq0 bq))) := by
  constructor
  · intro vs
    rw [FineQueue.ofList_eq_ofSeq]
    exact fineBluntSim_ofSeq vs
  · rintro fq ⟨s⟩ h
    obtain rfl : fq = FineQueue.ofSeq s := h.fine_canonical
    refine ⟨?_, ?_, ?_, ?_, ?_, ?_, ?_, ?_, ?_, ?_, ?_, ?_⟩
    · intro v
      rw [FineQueue.push_ofSeq]
      exact fineBluntSim_ofSeq (s ++ [v])
    · intro v
      show FineBluntSim ((FineQueue.ofSeq s).push v) (BluntQueue.push ⟨s⟩ v)
      rw [FineQueue.push_ofSeq]
      exact fineBluntSim_ofSeq (s ++ [v])
    · cases s with
      | nil => rfl
      | cons v s => rw [FineQueue.try_pop_ptr_ofSeq_cons]; rfl
    · cases s with
      | nil =>
        rw [FineQueue.try_pop_ptr_ofSeq_nil]
        exact fineBluntSim_ofSeq []
      | cons v s =>
        rw [FineQueue.try_pop_ptr_ofSeq_cons]
        exact fineBluntSim_ofSeq s
    · intro w
      cases s with
      | nil =>
        exact ⟨(false, w, FineQueue.ofSeq []), FineQueue.try_pop_ref_ofSeq_nil w,
          rfl, rfl, fineBluntSim_ofSeq []⟩
      | cons v s =>
        exact ⟨(true, v, FineQueue.ofSeq s), FineQueue.try_pop_ref_ofSeq_cons v s w,
          rfl, rfl, fineBluntSim_ofSeq s⟩
    · cases s with
      | nil => exact Or.inl ⟨FineQueue.wait_and_pop_ptr_ofSeq_nil, rfl⟩
      | cons v s =>
        exact Or.inr ⟨(some v, FineQueue.ofSeq s), (some v, ⟨s⟩),
          FineQueue.wait_and_pop_ptr_ofSeq_cons v s, rfl, rfl, fineBluntSim_ofSeq s⟩
    · intro w
      cases s with
      | nil => exact Or.inl ⟨FineQueue.wait_and_pop_ref_ofSeq_nil, rfl⟩
      | cons v s =>
        exact Or.inr ⟨(v, FineQueue.ofSeq s), (true, v, ⟨s⟩),
          FineQueue.wait_and_pop_ref_ofSeq_cons v s, rfl, rfl, rfl, fineBluntSim_ofSeq s⟩
    · rw [FineQueue.isEmpty_ofSeq]; rfl
    · rw [FineQueue.size_ofSeq]; rfl
    · rintro fq2 ⟨s2⟩ h2
      obtain rfl : fq2 = FineQueue.ofSeq s2 := h2.fine_canonical
      refine ⟨fineBluntSim_ofSeq s2, fineBluntSim_ofSeq s, ?_⟩
      rw [FineQueue.eqOp_ofSeq]
      rfl
    · exact ⟨FineQueue.ofSeq s, FineQueue.copyCtor_ofSeq s, fineBluntSim_ofSeq s⟩
    · intro fq0 bq0
      exact ⟨FineQueue.ofSeq s, FineQueue.copyAssign_ofSeq fq0 s, fineBluntSim_ofSeq s⟩

/-- Claim C2 witness: the simulation is discharged on the concrete pair built
from the initial sequence 8, 13, and a visible result (the size) agrees. -/
theorem claim_C2_observational_equivalence_witness :
    FineBluntSim (FineQueue.ofList [8, 13]) (BluntQueue.ofList ([8, 13] : List Nat))
  ∧ (FineQueue.ofList [8, 13] : FineQueue Nat).size
      = (BluntQueue.ofList ([8, 13] : List Nat)).size := by
  have h : FineBluntSim (FineQueue.ofList [8, 13])
      (BluntQueue.ofList ([8, 13] : List Nat)) := by decide
  refine ⟨h, ?_⟩
  exact (claim_C2_observational_equivalence.2 (FineQueue.ofList [8, 13])
    (BluntQueue.ofList [8, 13]) h).2.2.2.2.2.2.2.2.1

/-- Claim C4 (FineQueue structural invariant): the invariant — the chain has
at least one node, `tail_` sits on a dataless dummy node at the end of the
chain, every node before it holds exactly one element — holds after
construction (default, initializer-list, copy) and is preserved by push,
emplace, both try_pop forms, both wait_and_pop forms, and swap; popping the
sole remaining element leaves the default state: `head_ == tail_` on one
shared dummy node, never a null head. -/
theorem claim_C4_structural_invariant {α : Type} :
    (FineQueue.init : FineQueue α).Inv
  ∧ (∀ vs : List α, (FineQueue.ofList vs).Inv)
  ∧ (∀ q : FineQueue α, q.Inv →
        q.nodes ≠ []
      ∧ (∀ v, (q.push v).Inv)
      ∧ (∀ v, (q.emplace v).Inv)
      ∧ q.try_pop_ptr.2.Inv
      ∧ (∀ w r, q.try_pop_ref w = some r → r.2.2.Inv)
      ∧ (∀ r, q.wait_and_pop_ptr = some r → r.2.Inv)
      ∧ (∀ r, q.wait_and_pop_ref = some r → r.2.Inv)
      ∧ (∀ c, FineQueue.copyCtor q = some c → c.Inv)
      ∧ (∀ q0 c, FineQueue.copyAssign q0 q = some c → c.Inv)
      ∧ (∀ q2 : FineQueue α, q2.Inv →
            (q.swapQ q2).1.Inv ∧ (q.swapQ q2).2.Inv)
      ∧ (q.toList.length = 1 → q.try_pop_ptr.2 = FineQueue.init)) := by
  refine ⟨FineQueue.inv_ofSeq [], ?_, ?_⟩
  · intro vs
    rw [FineQueue.ofList_eq_ofSeq]
    exact FineQueue.inv_ofSeq vs
  · intro q hInv
    obtain ⟨vs, rfl⟩ := (FineQueue.inv_iff_canonical q).mp hInv
    refine ⟨?_, ?_, ?_, ?_, ?_, ?_, ?_, ?_, ?_, ?_, ?_⟩
    · cases vs <;> simp [FineQueue.ofSeq]
    · intro v; rw [FineQueue.push_ofSeq]; exact FineQueue.inv_ofSeq _
    · intro v
      show ((FineQueue.ofSeq vs).push v).Inv
      rw [FineQueue.push_ofSeq]; exact FineQueue.inv_ofSeq _
    · cases vs with
      | nil => rw [FineQueue.try_pop_ptr_ofSeq_nil]; exact FineQueue.inv_ofSeq _
      | cons v vs => rw [FineQueue.try_pop_ptr_ofSeq_cons]; exact FineQueue.inv_ofSeq _
    · intro w r hr
      cases vs with
      | nil =>
        rw [FineQueue.try_pop_ref_ofSeq_nil] at hr
        cases hr; exact FineQueue.inv_ofSeq _
      | cons v vs =>
        rw [FineQueue.try_pop_ref_ofSeq_cons] at hr
        cases hr; exact FineQueue.inv_ofSeq _
    · intro r hr
      cases vs with
      | nil => rw [FineQueue.wait_and_pop_ptr_ofSeq_nil] at hr; cases hr
      | cons v vs =>
        rw [FineQueue.wait_and_pop_ptr_ofSeq_cons] at hr
        cases hr; exact FineQueue.inv_ofSeq _
    · intro r hr
      cases vs with
      | nil => rw [FineQueue.wait_and_pop_ref_ofSeq_nil] at hr; cases hr
      | cons v vs =>
        rw [FineQueue.wait_and_pop_ref_ofSeq_cons] at hr
        cases hr; exact FineQueue.inv_ofSeq _
    · intro c hc
      rw [FineQueue.copyCtor_ofSeq] at hc
      cases hc; exact FineQueue.inv_ofSeq _
    · intro q0 c hc
      rw [FineQueue.copyAssign_ofSeq] at hc
      cases hc; exact FineQueue.inv_ofSeq _
    · intro q2 h2
      obtain ⟨ws, rfl⟩ := (FineQueue.inv_iff_canonical q2).mp h2
      exact ⟨FineQueue.inv_ofSeq ws, FineQueue.inv_ofSeq vs⟩
    · intro hlen
      rw [FineQueue.toList_ofSeq] at hlen
      match vs, hlen with
      | [v], _ =>
        rw [FineQueue.try_pop_ptr_ofSeq_cons, FineQueue.ofSeq_nil]

/-- Claim C4 witness: instantiated on the concrete queue holding 8, 13. -/
theorem claim_C4_structural_invariant_witness :
    (FineQueue.ofList [8, 13] : FineQueue Nat).Inv
  ∧ ((FineQueue.ofList [8, 13] : FineQueue Nat).push 62).Inv
  ∧ (FineQueue.ofList [7] : FineQueue Nat).Inv
  ∧ (FineQueue.ofList [7] : FineQueue Nat).toList.length = 1
  ∧ (FineQueue.ofList [7] : FineQueue Nat).try_pop_ptr.2 = FineQueue.init := by
  refine ⟨by decide, ?_, by decide, by decide, ?_⟩
  · exact ((claim_C4_structural_invariant.2.2 (FineQueue.ofList [8, 13])
      (by decide)).2.1) 62
  · exact ((claim_C4_structural_invariant.2.2 (FineQueue.ofList [7])
      (by decide)).2.2.2.2.2.2.2.2.2.2) (by decide)

/-- Claim C10 witness: the empty queues with out-parameter initially 42. -/
theorem claim_C10_try_pop_ref_untouched_witness :
    (BluntQueue.init : BluntQueue Nat).isEmpty = true
  ∧ (FineQueue.init : FineQueue Nat).isEmpty = true
  ∧ (BluntQueue.init : BluntQueue Nat).try_pop_ref 42 = (false, 42, BluntQueue.init)
  ∧ (FineQueue.init : FineQueue Nat).try_pop_ref 42
      = some (false, 42, FineQueue.init) := by
  refine ⟨by decide, by decide, ?_, ?_⟩
  · exact claim_C10_try_pop_ref_untouched.1 BluntQueue.init 42 (by decide)
  · exact claim_C10_try_pop_ref_untouched.2 FineQueue.init 42 (by decide)

end ThreadSafeContainers
